import Mathlib

/-!
Verification development for the SecureAgent prompt-assembly core.

The embedding follows the TypeScript sources:
* `assignLineNumbers`, `buildSuggestionPrompt`, `buildPatchPrompt`,
  `ModelsToTokenLimits`, `isConversationWithinLimit` (prompt module),
* `processNode`, `traverseNode`, `findEnclosingContext` (`python-parser.ts`),
* `assignFullLineNumbers`, `getInlineFixPrompt` (`inline-prompt.ts`).

JavaScript strings are modelled as Lean `String`; `split("\n")`, `join("\n")`,
`startsWith` and first-occurrence `replace` are given explicit, executable
models over the character list of the string.  A computation that would throw
a `TypeError` at runtime (reading a capture group of a failed regex match) is
modelled by `Option`, with `none` standing for the thrown exception.
-/

/-- Model of JavaScript `s.split("\n")` on the character list: split at every
newline character; the accumulator holds the current segment reversed. -/
def splitLinesAux : List Char → List Char → List (List Char)
  | [], acc => [acc.reverse]
  | c :: cs, acc =>
    if c = '\n' then acc.reverse :: splitLinesAux cs []
    else splitLinesAux cs (c :: acc)

/-- JavaScript `s.split("\n")`. -/
def splitLines (s : String) : List String :=
  (splitLinesAux s.data []).map String.mk

/-- JavaScript `lines.join("\n")`. -/
def joinLines : List String → String
  | [] => ""
  | [l] => l
  | l :: ls => l ++ "\n" ++ joinLines ls

/-- JavaScript `s.startsWith(p)`. -/
def jsStartsWith (s p : String) : Bool :=
  p.data.isPrefixOf s.data

/-- Strip a literal character sequence from the front of the input,
failing when the input does not begin with it. -/
def stripLit : List Char → List Char → Option (List Char)
  | [], cs => some cs
  | _ :: _, [] => none
  | p :: ps, c :: cs => if c = p then stripLit ps cs else none

/-- Numeric value of a digit string (the semantics of `parseInt` on the
digits captured by `(\d+)`). -/
def digitsToNat (ds : List Char) : Nat :=
  ds.foldl (fun n c => 10 * n + (c.toNat - '0'.toNat)) 0

/-- Greedy `\d+`: take the leading digit run, requiring at least one digit. -/
def takeNum (cs : List Char) : Option (Nat × List Char) :=
  let ds := cs.takeWhile (·.isDigit)
  if ds.isEmpty then none
  else some (digitsToNat ds, cs.dropWhile (·.isDigit))

/-- Attempt to match the pattern of the regex in `assignLineNumbers`,
anchored at the head of the input, returning the first capture group
(the post-image start line `c` of `@@ -a,b +c,d @@`).  Each `\d+` is
followed by a non-digit literal, so greedy maximal munch is exact. -/
def matchAt (cs : List Char) : Option Nat := do
  let cs1 ← stripLit "@@ -".data cs
  let (_, cs2) ← takeNum cs1
  let cs3 ← stripLit ",".data cs2
  let (_, cs4) ← takeNum cs3
  let cs5 ← stripLit " +".data cs4
  let (c, cs6) ← takeNum cs5
  let cs7 ← stripLit ",".data cs6
  let (_, cs8) ← takeNum cs7
  let _ ← stripLit " @@".data cs8
  some c

/-- Unanchored, leftmost-first regex search, as JavaScript `line.match(...)`:
try the pattern at every position left to right. -/
def regexSearch : List Char → Option Nat
  | [] => matchAt []
  | c :: cs =>
    match matchAt (c :: cs) with
    | some n => some n
    | none => regexSearch cs

/-- `line.match(/@@ -\d+,\d+ \+(\d+),\d+ @@/)`, reduced to the value
`parseInt(match[1])`; `none` when the match is `null`. -/
def chunkHeaderMatch (line : String) : Option Nat :=
  regexSearch line.data

/-- The body of the `for (const line of lines)` loop of `assignLineNumbers`,
threading the mutable `newLine` counter.  `none` models the `TypeError`
thrown by `match[1]` when a line starting with `"@@"` does not match the
chunk-header regex. -/
def assignLineNumbersLoop : Nat → List String → Option (List String)
  | _, [] => some []
  | newLine, line :: rest =>
    if jsStartsWith line "@@" then
      match chunkHeaderMatch line with
      | some c => (assignLineNumbersLoop c rest).map (line :: ·)
      | none => none
    else if jsStartsWith line "-" then
      assignLineNumbersLoop newLine rest
    else
      (assignLineNumbersLoop (newLine + 1) rest).map
        ((Nat.repr newLine ++ ": " ++ line) :: ·)

/-- `assignLineNumbers` from the prompt module: split the diff into lines,
start the counter at 0, keep the chunk headers as is, drop `-` lines, and
prefix every other line with the running new-file line number. -/
def assignLineNumbers (diff : String) : Option String :=
  (assignLineNumbersLoop 0 (splitLines diff)).map joinLines

/-- Spec-side renumbering, written from the specification's words: chunk
headers pass through verbatim and reset the counter to the parsed post-image
start, deletion lines are dropped, every other line is emitted with the
counter prefixed and the counter stepped by exactly 1. -/
def annotateSpec : Nat → List String → List String
  | _, [] => []
  | n, line :: rest =>
    if jsStartsWith line "@@" then
      line :: annotateSpec ((chunkHeaderMatch line).getD n) rest
    else if jsStartsWith line "-" then
      annotateSpec n rest
    else
      (Nat.repr n ++ ": " ++ line) :: annotateSpec (n + 1) rest

/-- The retained lines of a diff: exactly those not starting with `-`. -/
def nonDeletionLines (lines : List String) : List String :=
  lines.filter (fun l => !(jsStartsWith l "-"))

/-- A chat message role, as in `ChatCompletionMessageParam`. -/
inductive ChatRole where
  | system
  | user
deriving DecidableEq

/-- A role-tagged chat message. -/
structure ChatMessage where
  role : ChatRole
  content : String
deriving DecidableEq

/-- The static `ModelsToTokenLimits` table, as a lookup on the model
identifier string; `none` models the JavaScript `undefined` produced by
indexing the record with a key that has no entry. -/
def ModelsToTokenLimits : String → Option Nat
  | "mixtral-8x7b-32768" => some 32768
  | "gemma-7b-it" => some 32768
  | "llama3-70b-8192" => some 8192
  | "llama3-8b-8192" => some 8192
  | _ => none

/-- `isConversationWithinLimit`, parameterized by the length of the external
`encodeChat` tokenizer estimate (gpt-tokenizer with the gpt-3.5-turbo
encoding, which the source uses as a rough equivalent).  The estimate is
compared strictly-less-than the table entry for the model.  For a key with
no entry the JavaScript lookup yields `undefined`, and
`convoTokens < undefined` evaluates to `false`; in TypeScript such keys are
already excluded by the `GroqChatModel` parameter type. -/
def isConversationWithinLimit (encodeChatLen : List ChatMessage → Nat)
    (convo : List ChatMessage) (model : String) : Bool :=
  match ModelsToTokenLimits model with
  | some limit => decide (encodeChatLen convo < limit)
  | none => false

/-- A changed file of a pull request.  Modelled from the spec: the `PRFile`
type is declared in `constants.ts`, which is not among the sources at hand;
per the spec a PatchFile carries a filename, the unified-diff patch text,
and the optional previous full file contents (`none` models both `null`
and `undefined`, the values equated by the `== null` test). -/
structure PRFile where
  filename : String
  patch : String
  old_contents : Option String

/-- `buildSuggestionPrompt` from the prompt module: `String.raw` applied to
the patch is the patch itself; the renumbered patch is wrapped under a `##`
filename heading. -/
def buildSuggestionPrompt (file : PRFile) : Option String :=
  (assignLineNumbers file.patch).map
    (fun patchWithLines => "## " ++ file.filename ++ "\n\n" ++ patchWithLines)

/-- Modelled from the spec: `rawPatchStrategy` lives in `context/review`,
which is not among the sources at hand; per the spec the raw-patch strategy
renders the filename under a `##` heading, a blank line, and the
diff renumbered by the Diff Line Mapper — exactly the rendering of
`buildSuggestionPrompt`. -/
def rawPatchStrategy (file : PRFile) : Option String :=
  (assignLineNumbers file.patch).map
    (fun annotatedPatch => "## " ++ file.filename ++ "\n\n" ++ annotatedPatch)

/-- `buildPatchPrompt`, parameterized by the smarter-context strategy
(`smarterContextPatchStrategy` also lives in `context/review`): when
`old_contents` is null the raw-patch strategy runs, otherwise the smarter
one. -/
def buildPatchPrompt (smarterContextPatchStrategy : PRFile → Option String)
    (file : PRFile) : Option String :=
  match file.old_contents with
  | none => rawPatchStrategy file
  | some _ => smarterContextPatchStrategy file

/-- The source-location range carried by `node.loc` of a python-ast node:
the 1-indexed start and end lines.  Line numbers are JavaScript integers,
modelled as `Int`. -/
structure PyLoc where
  startLine : Int
  endLine : Int
deriving DecidableEq

/-- A parsed python-ast node as `python-parser.ts` consumes it: a location
and the `node.body` child list (an absent `body` is the empty list, which
the `if (node.body)` guard likewise skips). -/
inductive PyNode where
  | mk (loc : PyLoc) (body : List PyNode)

/-- The `node.loc` field. -/
def PyNode.loc : PyNode → PyLoc
  | .mk l _ => l

/-- The `node.body` field. -/
def PyNode.body : PyNode → List PyNode
  | .mk _ b => b

/-- `processNode` from `python-parser.ts`: when the node's range contains
the requested range and its size strictly exceeds the running maximum,
the node becomes the new largest enclosing context. -/
def processNode (node : PyNode) (lineStart lineEnd : Int)
    (largestSize : Int) (largestEnclosingContext : Option PyNode) :
    Int × Option PyNode :=
  if node.loc.startLine ≤ lineStart ∧ lineEnd ≤ node.loc.endLine then
    let size := node.loc.endLine - node.loc.startLine
    if size > largestSize then (size, some node)
    else (largestSize, largestEnclosingContext)
  else (largestSize, largestEnclosingContext)

mutual

/-- The recursive `traverseNode` closure of `findEnclosingContext`:
process the node, then recurse into its `body` children in order,
threading the mutable pair (largestSize, largestEnclosingContext). -/
def traverseNode (lineStart lineEnd : Int) :
    PyNode → Int × Option PyNode → Int × Option PyNode
  | .mk loc body, st =>
    traverseBody lineStart lineEnd body
      (processNode (.mk loc body) lineStart lineEnd st.1 st.2)

/-- `node.body.forEach(traverseNode)`: fold the traversal over the
children left to right. -/
def traverseBody (lineStart lineEnd : Int) :
    List PyNode → Int × Option PyNode → Int × Option PyNode
  | [], st => st
  | child :: rest, st =>
    traverseBody lineStart lineEnd rest (traverseNode lineStart lineEnd child st)

end

/-- The result record of `findEnclosingContext`: the selected node, or
null when no node was selected. -/
structure EnclosingContext where
  enclosingContext : Option PyNode

/-- `PythonParser.findEnclosingContext` over an already parsed tree.  The
`ast.parse` call belongs to the external python-ast library, so the tree is
taken as input; the `catch` branch for a parse failure returns before any
traversal and is outside this embedding. -/
def findEnclosingContext (parsed : PyNode) (lineStart lineEnd : Int) :
    EnclosingContext :=
  ⟨(traverseNode lineStart lineEnd parsed (0, none)).2⟩

mutual

/-- All nodes of the tree in depth-first preorder — the visitation order
of `traverseNode`. -/
def allNodes : PyNode → List PyNode
  | .mk loc body => .mk loc body :: allNodesList body

/-- All nodes of a forest in depth-first preorder. -/
def allNodesList : List PyNode → List PyNode
  | [] => []
  | n :: ns => allNodes n ++ allNodesList ns

end

/-- A node is a candidate for the requested range when its source range
fully contains it. -/
def nodeContains (node : PyNode) (lineStart lineEnd : Int) : Prop :=
  node.loc.startLine ≤ lineStart ∧ lineEnd ≤ node.loc.endLine

instance (node : PyNode) (a b : Int) : Decidable (nodeContains node a b) :=
  inferInstanceAs (Decidable (_ ∧ _))

/-- The size of a node: end line minus start line. -/
def nodeSize (node : PyNode) : Int :=
  node.loc.endLine - node.loc.startLine

/-- One traversal step as a fold function over the preorder node list. -/
def processStep (lineStart lineEnd : Int) (st : Int × Option PyNode)
    (n : PyNode) : Int × Option PyNode :=
  processNode n lineStart lineEnd st.1 st.2

/-- Invariant of the traversal state after visiting `visited` (in order):
with no context selected the running maximum is still 0 and every candidate
seen so far has size at most 0; with context `m` selected, `m` is a
candidate of positive size equal to the running maximum, every candidate
visited before `m` is strictly smaller, and every candidate visited after
`m` is no larger. -/
def TravInv (a b : Int) (visited : List PyNode) :
    Int × Option PyNode → Prop
  | (s, none) => s = 0 ∧ ∀ n ∈ visited, nodeContains n a b → nodeSize n ≤ 0
  | (s, some m) => s = nodeSize m ∧ 0 < nodeSize m ∧ nodeContains m a b ∧
      ∃ pre post, visited = pre ++ m :: post ∧
        (∀ n ∈ pre, nodeContains n a b → nodeSize n < nodeSize m) ∧
        (∀ n ∈ post, nodeContains n a b → nodeSize n ≤ nodeSize m)

/-- ECMAScript `GetSubstitution` for a string (non-regex) search value:
the replacement text is scanned for the two-character substitution patterns,
with `$$` producing `$`, `$&` producing the matched text, `$` followed by a
backtick (code 96) producing the portion of the subject before the match,
and `$` followed by an apostrophe (code 39) producing the portion after the
match.  A string search has no capture groups and no named captures, so
digit and angle-bracket forms stay literal, as does any other `$`. -/
def getSubstitution (matched before after : List Char) : List Char → List Char
  | [] => []
  | c :: rest =>
    if c = '$' then
      match rest with
      | [] => ['$']
      | d :: rest2 =>
        if d = '$' then '$' :: getSubstitution matched before after rest2
        else if d = '&' then matched ++ getSubstitution matched before after rest2
        else if d = Char.ofNat 96 then
          before ++ getSubstitution matched before after rest2
        else if d = Char.ofNat 39 then
          after ++ getSubstitution matched before after rest2
        else '$' :: getSubstitution matched before after (d :: rest2)
    else c :: getSubstitution matched before after rest

/-- Whether a replacement text contains one of the two-character `$`
substitution patterns that `GetSubstitution` rewrites (`$$`, `$&`, `$`
with a backtick, `$` with an apostrophe); on other text the substitution
is the identity. -/
def hasDollarPattern : List Char → Bool
  | [] => false
  | c :: rest =>
    if c = '$' then
      match rest with
      | [] => false
      | d :: rest2 =>
        if d = '$' ∨ d = '&' ∨ d = Char.ofNat 96 ∨ d = Char.ofNat 39 then true
        else hasDollarPattern (d :: rest2)
    else hasDollarPattern rest

/-- JavaScript first-occurrence `s.replace(pat, repl)` on character lists:
scan left to right for the first occurrence of `pat` (the reversed prefix
already scanned is the accumulator); on a match, emit the prefix, the
`GetSubstitution` of the replacement, and the remainder; with no occurrence
the input is unchanged. -/
def replaceFirstListAux (pat repl : List Char) : List Char → List Char → List Char
  | before, [] =>
    if pat.isPrefixOf ([] : List Char) then
      before.reverse ++ getSubstitution pat before.reverse [] repl
    else before.reverse
  | before, c :: cs =>
    if pat.isPrefixOf (c :: cs) then
      before.reverse ++
        getSubstitution pat before.reverse (List.drop pat.length (c :: cs)) repl ++
        List.drop pat.length (c :: cs)
    else replaceFirstListAux pat repl (c :: before) cs

/-- First-occurrence replacement, started with an empty scanned prefix. -/
def replaceFirstList (pat repl s : List Char) : List Char :=
  replaceFirstListAux pat repl [] s

/-- JavaScript `s.replace(pat, repl)` with a string pattern: only the first
occurrence is replaced, and the replacement undergoes `$`-substitution. -/
def jsReplace (s pat repl : String) : String :=
  ⟨replaceFirstList pat.data repl.data s.data⟩

/-- `INLINE_FIX_PROMPT` from `inline-prompt.ts`: the fixed system
instruction of the inline-fix conversation (braces are written `\x7b` and
`\x7d`, apostrophes `\x27`). -/
def INLINE_FIX_PROMPT : String :=
  "You are CodeFixer, an advanced language model specialized in fixing code snippets based on suggestions. Your task is to provide a detailed and clear fix for the provided code snippet, along with a comprehensive explanation.\n\n**Guidelines:**\n- Analyze the provided code snippet and the suggestion carefully.\n- Provide multiple comments if there are several issues or improvements that can be made.\n- For each comment, start with a brief explanation followed by a more detailed suggestion.\n- Provide a detailed explanation of why the fix is valid in the `comment` field.\n- Include the exact modified code snippet in the `code` field. Ensure proper formatting and escape sequences.\n- Use the `lineStart` and `lineEnd` to define the scope of the change.\n- Ensure the explanation covers the following aspects:\n  - What was wrong with the original code.\n  - How the fix resolves the issue.\n  - Any potential edge cases or alternative approaches.\n  - References to best practices or documentation where applicable.\n\n**Example Input and Output**:\n```\nInput:\n## Original Code\ndef example_func():\n    new_code_line()\n\n## Suggestion\nThe new code line introduces a potential performance issue because it does not utilize the existing cache mechanism. To improve performance, consider using the cache.\n\nOutput:\n[\n  \x7b\n    \"comment\": \"The new code line introduces a potential performance issue because it does not utilize the existing cache mechanism. To improve performance, consider using the cache as shown below. This change ensures that the expensive operation is only performed once for each unique input, significantly improving performance. Additionally, this approach follows the best practice of caching expensive operations to enhance performance.\",\n    \"code\": \"if new_code_line not in cache:\n    cache[new_code_line] = compute_expensive_operation(new_code_line)\nresult = cache[new_code_line]\",\n    \"lineStart\": 2,\n    \"lineEnd\": 2\n  \x7d,\n  \x7b\n    \"comment\": \"The new code line lacks error handling, which could lead to unhandled exceptions. To enhance the robustness of the code, add error handling as follows:\",\n    \"code\": \"try:\n    new_code_line()\nexcept SpecificException as e:\n    handle_error(e)\",\n    \"lineStart\": 2,\n    \"lineEnd\": 2\n  \x7d,\n  \x7b\n    \"comment\": \"The new code line could benefit from better variable naming to improve readability. Consider renaming \x27new_code_line\x27 to \x27processed_code_line\x27 to make its purpose clearer.\",\n    \"code\": \"processed_code_line = new_code_line\",\n    \"lineStart\": 2,\n    \"lineEnd\": 2\n  \x7d,\n  \x7b\n    \"comment\": \"Brief Explanation: The current implementation does not handle edge cases where the input might be null or undefined. Detailed Suggestion: Add a check to handle null or undefined inputs to prevent potential runtime errors.\",\n    \"code\": \"if new_code_line is not None:\n    if new_code_line not in cache:\n        cache[new_code_line] = compute_expensive_operation(new_code_line)\n    result = cache[new_code_line]\nelse:\n    handle_error(\x27Input is null or undefined\x27)\",\n    \"lineStart\": 2,\n    \"lineEnd\": 2\n  \x7d\n]\n```\n\nMake your fix insightful, technically accurate, and as detailed as possible to significantly improve the codebase."

/-- `INLINE_USER_MESSAGE_TEMPLATE` from `inline-prompt.ts`: the suggestion
placeholder, a blank line, and the file placeholder. -/
def INLINE_USER_MESSAGE_TEMPLATE : String :=
  "\x7bSUGGESTION\x7d\n\n\x7bFILE\x7d"

/-- The `lines.map` body of `assignFullLineNumbers`, threading the
`lineNumber` counter. -/
def numberLinesFrom : Nat → List String → List String
  | _, [] => []
  | n, l :: ls => (Nat.repr n ++ ": " ++ l) :: numberLinesFrom (n + 1) ls

/-- `assignFullLineNumbers` from `inline-prompt.ts`: absolute 1..N line
numbering of the full file contents (the counter starts at 1). -/
def assignFullLineNumbers (contents : String) : String :=
  joinLines (numberLinesFrom 1 (splitLines contents))

/-- `getInlineFixPrompt` from `inline-prompt.ts`.  The suggestion argument
stands for `suggestion.toString()` (the `PRSuggestion` class is declared in
`constants.ts`, which is not among the sources at hand). -/
def getInlineFixPrompt (fileContents : String) (suggestion : String) :
    List ChatMessage :=
  [⟨ChatRole.system, INLINE_FIX_PROMPT⟩,
   ⟨ChatRole.user,
     jsReplace
       (jsReplace INLINE_USER_MESSAGE_TEMPLATE "\x7bSUGGESTION\x7d" suggestion)
       "\x7bFILE\x7d" (assignFullLineNumbers fileContents)⟩]

theorem assignLineNumbersLoop_eq_annotateSpec (lines : List String) :
    ∀ n out, assignLineNumbersLoop n lines = some out → out = annotateSpec n lines := by
  induction lines with
  | nil => intro n out h; simpa [assignLineNumbersLoop, annotateSpec] using h.symm
  | cons line rest ih =>
    intro n out h
    by_cases hat : jsStartsWith line "@@"
    · rcases hm : chunkHeaderMatch line with _ | c
      · simp [assignLineNumbersLoop, hat, hm] at h
      · simp only [assignLineNumbersLoop, hat, hm, if_pos, Option.map_eq_some'] at h
        obtain ⟨out', h', rfl⟩ := h
        simp [annotateSpec, hat, hm, ih c out' h']
    · by_cases hdel : jsStartsWith line "-"
      · simp only [assignLineNumbersLoop, hat, hdel, if_neg, if_pos,
          Bool.false_eq_true, not_false_iff] at h
        simp [annotateSpec, hat, hdel, ih n out h]
      · simp only [assignLineNumbersLoop, hat, hdel, Bool.false_eq_true, if_neg,
          not_false_iff, Option.map_eq_some'] at h
        obtain ⟨out', h', rfl⟩ := h
        simp [annotateSpec, hat, hdel, ih (n + 1) out' h']

theorem jsStartsWith_at_not_dash (l : String) (h : jsStartsWith l "@@") :
    ¬ jsStartsWith l "-" := by
  intro hd
  simp only [jsStartsWith] at h hd
  have h' : ['@', '@'] <+: l.data := List.isPrefixOf_iff_prefix.mp h
  have hd' : ['-'] <+: l.data := List.isPrefixOf_iff_prefix.mp hd
  obtain ⟨t1, e1⟩ := h'
  obtain ⟨t2, e2⟩ := hd'
  rw [← e1] at e2
  simp only [List.cons_append, List.nil_append] at e2
  exact absurd (List.cons.inj e2).1 (by decide)

theorem annotateSpec_forall2 (lines : List String) :
    ∀ n, List.Forall₂ (fun src out => src.data <:+ out.data)
      (nonDeletionLines lines) (annotateSpec n lines) := by
  induction lines with
  | nil => intro n; simp [nonDeletionLines, annotateSpec]
  | cons line rest ih =>
    intro n
    by_cases hat : jsStartsWith line "@@"
    · have hdel := jsStartsWith_at_not_dash line hat
      have hf : List.Forall₂ (fun src out => src.data <:+ out.data)
          (line :: nonDeletionLines rest)
          (line :: annotateSpec ((chunkHeaderMatch line).getD n) rest) :=
        List.Forall₂.cons (List.suffix_refl line.data) (ih _)
      simpa [nonDeletionLines, annotateSpec, hat, hdel] using hf
    · by_cases hdel : jsStartsWith line "-"
      · simpa [nonDeletionLines, annotateSpec, hat, hdel] using ih n
      · have hsuf : line.data <:+ (Nat.repr n ++ ": " ++ line).data := by
          rw [String.data_append]
          exact List.suffix_append _ _
        have hf : List.Forall₂ (fun src out => src.data <:+ out.data)
            (line :: nonDeletionLines rest)
            ((Nat.repr n ++ ": " ++ line) :: annotateSpec (n + 1) rest) :=
          List.Forall₂.cons hsuf (ih (n + 1))
        simpa [nonDeletionLines, annotateSpec, hat, hdel] using hf

/-- C1 counterexample: on the diff of the scenario, `assignLineNumbers` does
not return the string claimed by the specification — the diff prefix
characters of the retained lines are not removed. -/
theorem spec_C1_counterexample :
    assignLineNumbers "@@ -1,2 +1,2 @@\n-foo\n+bar\n baz" ≠
      some "@@ -1,2 +1,2 @@\n1: bar\n2: baz" := by decide

/-- C1 (amended): for the input diff of the scenario, `assignLineNumbers`
drops the deletion line and numbers the retained lines 1 and 2, but keeps
their diff prefix characters, returning
`"@@ -1,2 +1,2 @@\n1: +bar\n2:  baz"`. -/
theorem spec_C1 :
    assignLineNumbers "@@ -1,2 +1,2 @@\n-foo\n+bar\n baz" =
      some "@@ -1,2 +1,2 @@\n1: +bar\n2:  baz" := by decide

/-- C2: whenever `assignLineNumbers` produces output, the output is the
spec-side renumbering `annotateSpec` starting from counter 0 (headers pass
verbatim and reset the counter to the parsed post-image start, deletion
lines are dropped, retained lines are numbered consecutively, stepping by
exactly 1), and the output lines are in order-preserving correspondence with
the non-deletion input lines, each input line surviving as a suffix of its
output line. -/
theorem spec_C2 (diff out : String)
    (h : assignLineNumbers diff = some out) :
    out = joinLines (annotateSpec 0 (splitLines diff)) ∧
    List.Forall₂ (fun src o => src.data <:+ o.data)
      (nonDeletionLines (splitLines diff)) (annotateSpec 0 (splitLines diff)) := by
  refine ⟨?_, annotateSpec_forall2 (splitLines diff) 0⟩
  rw [assignLineNumbers, Option.map_eq_some'] at h
  obtain ⟨outLines, hLoop, rfl⟩ := h
  rw [assignLineNumbersLoop_eq_annotateSpec (splitLines diff) 0 outLines hLoop]

/-- C2 witness: the general theorem applied to the concrete scenario diff. -/
theorem spec_C2_witness :
    "@@ -1,2 +1,2 @@\n1: +bar\n2:  baz" =
      joinLines (annotateSpec 0 (splitLines "@@ -1,2 +1,2 @@\n-foo\n+bar\n baz")) ∧
    List.Forall₂ (fun src o => src.data <:+ o.data)
      (nonDeletionLines (splitLines "@@ -1,2 +1,2 @@\n-foo\n+bar\n baz"))
      (annotateSpec 0 (splitLines "@@ -1,2 +1,2 @@\n-foo\n+bar\n baz")) :=
  spec_C2 "@@ -1,2 +1,2 @@\n-foo\n+bar\n baz" "@@ -1,2 +1,2 @@\n1: +bar\n2:  baz"
    (by decide)

/-- C8 counterexample: for the diff `"foo"`, whose only content line appears
before any chunk header, `assignLineNumbers` raises no error and silently
numbers the line from the default counter value 0. -/
theorem spec_C8_counterexample :
    assignLineNumbers "foo" = some "0: foo" := by decide

theorem exists_bad_cons (line : String) (rest : List String)
    (hline : ¬ (jsStartsWith line "@@" ∧ chunkHeaderMatch line = none)) :
    (∃ l ∈ line :: rest, jsStartsWith l "@@" ∧ chunkHeaderMatch l = none) ↔
      ∃ l ∈ rest, jsStartsWith l "@@" ∧ chunkHeaderMatch l = none := by
  constructor
  · rintro ⟨l, hl, h⟩
    rcases List.mem_cons.mp hl with rfl | hl
    · exact absurd h hline
    · exact ⟨l, hl, h⟩
  · rintro ⟨l, hl, h⟩
    exact ⟨l, List.mem_cons_of_mem _ hl, h⟩

theorem loop_none_iff (lines : List String) :
    ∀ n, (assignLineNumbersLoop n lines = none ↔
      ∃ l ∈ lines, jsStartsWith l "@@" ∧ chunkHeaderMatch l = none) := by
  induction lines with
  | nil => intro n; simp [assignLineNumbersLoop]
  | cons line rest ih =>
    intro n
    by_cases hat : jsStartsWith line "@@"
    · rcases hm : chunkHeaderMatch line with _ | c
      · have hl : assignLineNumbersLoop n (line :: rest) = none := by
          simp [assignLineNumbersLoop, hat, hm]
        exact iff_of_true hl ⟨line, by simp, hat, hm⟩
      · have hl : assignLineNumbersLoop n (line :: rest) =
            (assignLineNumbersLoop c rest).map (line :: ·) := by
          simp [assignLineNumbersLoop, hat, hm]
        rw [hl, Option.map_eq_none', ih c,
          exists_bad_cons line rest (fun hbad => by rw [hm] at hbad; cases hbad.2)]
    · have hl : assignLineNumbersLoop n (line :: rest) =
          if jsStartsWith line "-" then assignLineNumbersLoop n rest
          else (assignLineNumbersLoop (n + 1) rest).map
            ((Nat.repr n ++ ": " ++ line) :: ·) := by
        simp [assignLineNumbersLoop, hat]
      rw [hl]
      by_cases hdel : jsStartsWith line "-"
      · rw [if_pos hdel, ih n, exists_bad_cons line rest (fun hbad => hat hbad.1)]
      · rw [if_neg hdel, Option.map_eq_none', ih (n + 1),
          exists_bad_cons line rest (fun hbad => hat hbad.1)]

theorem loop_append_pre (pre rest : List String) :
    ∀ n, (∀ l ∈ pre, ¬ jsStartsWith l "@@") →
      assignLineNumbersLoop n (pre ++ rest) =
        (assignLineNumbersLoop (n + (nonDeletionLines pre).length) rest).map
          (fun restOut => annotateSpec n pre ++ restOut) := by
  induction pre with
  | nil =>
    intro n _
    simp [nonDeletionLines, annotateSpec]
  | cons line pre ih =>
    intro n h
    have hat : ¬ jsStartsWith line "@@" := h line (by simp)
    have hpre : ∀ l ∈ pre, ¬ jsStartsWith l "@@" := fun l hl => h l (by simp [hl])
    by_cases hdel : jsStartsWith line "-"
    · simp only [List.cons_append, assignLineNumbersLoop, List.append_eq]
      rw [if_neg hat, if_pos hdel, ih n hpre]
      simp [nonDeletionLines, annotateSpec, hat, hdel]
    · simp only [List.cons_append, assignLineNumbersLoop, List.append_eq]
      rw [if_neg hat, if_neg hdel, ih (n + 1) hpre]
      have harith : ∀ m : Nat, n + 1 + m = n + (m + 1) := fun m => by omega
      simp [nonDeletionLines, annotateSpec, hat, hdel, Option.map_map,
        Function.comp_def, harith]

/-- C8 (amended): `assignLineNumbers` surfaces an error exactly when some
line starting with `"@@"` fails to match the chunk-header regex; a content
line appearing before any chunk header never causes an error — the segment
of lines up to the first `"@@"`-line is always processed silently, its
non-deletion lines numbered from the default counter value 0 upward, with
any error arising only from the remaining lines. -/
theorem spec_C8 (diff : String) :
    (assignLineNumbers diff = none ↔
      ∃ l ∈ splitLines diff, jsStartsWith l "@@" ∧ chunkHeaderMatch l = none) ∧
    assignLineNumbersLoop 0 (splitLines diff) =
      (assignLineNumbersLoop
          (nonDeletionLines ((splitLines diff).takeWhile
            (fun l => !(jsStartsWith l "@@")))).length
          ((splitLines diff).dropWhile (fun l => !(jsStartsWith l "@@")))).map
        (fun restOut =>
          annotateSpec 0 ((splitLines diff).takeWhile
            (fun l => !(jsStartsWith l "@@"))) ++ restOut) := by
  constructor
  · rw [assignLineNumbers, Option.map_eq_none']
    exact loop_none_iff (splitLines diff) 0
  · have hpre : ∀ l ∈ (splitLines diff).takeWhile (fun l => !(jsStartsWith l "@@")),
        ¬ jsStartsWith l "@@" := by
      intro l hl
      simpa using List.mem_takeWhile_imp hl
    have h := loop_append_pre
      ((splitLines diff).takeWhile (fun l => !(jsStartsWith l "@@")))
      ((splitLines diff).dropWhile (fun l => !(jsStartsWith l "@@"))) 0 hpre
    rw [List.takeWhile_append_dropWhile] at h
    simpa using h

/-- C8 witness: the amended theorem applied to the diff `"foo"`, whose
content line precedes any chunk header: no error arises. -/
theorem spec_C8_witness :
    assignLineNumbers "foo" ≠ none ∧
    assignLineNumbersLoop 0 (splitLines "foo") =
      (assignLineNumbersLoop
          (nonDeletionLines ((splitLines "foo").takeWhile
            (fun l => !(jsStartsWith l "@@")))).length
          ((splitLines "foo").dropWhile (fun l => !(jsStartsWith l "@@")))).map
        (fun restOut =>
          annotateSpec 0 ((splitLines "foo").takeWhile
            (fun l => !(jsStartsWith l "@@"))) ++ restOut) := by
  have h := spec_C8 "foo"
  have hno : ¬ ∃ l ∈ splitLines "foo",
      jsStartsWith l "@@" ∧ chunkHeaderMatch l = none := by decide
  exact ⟨fun hn => hno (h.1.mp hn), h.2⟩

/-- C6: for every model with an entry in the limit table,
`isConversationWithinLimit` returns true exactly when the estimated token
count of the whole conversation is strictly less than that entry; in
particular, for model `"llama3-8b-8192"` and any conversation whose estimate
is 9000 tokens it returns false (the table entry is 8192). -/
theorem spec_C6 (encodeChatLen : List ChatMessage → Nat)
    (convo : List ChatMessage) (model : String) (limit : Nat)
    (h : ModelsToTokenLimits model = some limit) :
    (isConversationWithinLimit encodeChatLen convo model = true ↔
      encodeChatLen convo < limit) ∧
    (model = "llama3-8b-8192" → encodeChatLen convo = 9000 →
      isConversationWithinLimit encodeChatLen convo model = false) := by
  constructor
  · simp [isConversationWithinLimit, h]
  · rintro rfl he
    have h8 : limit = 8192 := by
      have : ModelsToTokenLimits "llama3-8b-8192" = some 8192 := rfl
      rw [this] at h
      exact (Option.some.inj h).symm
    simp [isConversationWithinLimit, h, he, h8]

/-- C6 witness: the theorem applied to model `"llama3-8b-8192"` and a
constant tokenizer estimate of 9000. -/
theorem spec_C6_witness :
    (isConversationWithinLimit (fun _ => 9000) [] "llama3-8b-8192" = true ↔
      9000 < 8192) ∧
    ("llama3-8b-8192" = "llama3-8b-8192" → 9000 = 9000 →
      isConversationWithinLimit (fun _ => 9000) [] "llama3-8b-8192" = false) :=
  spec_C6 (fun _ => 9000) [] "llama3-8b-8192" 8192 (by decide)

/-- C7 counterexample: for a model identifier with no entry in the limit
table, `isConversationWithinLimit` returns the boolean verdict `false`
instead of failing with an error — no `UnknownModelError` exists in the
code. -/
theorem spec_C7_counterexample :
    ModelsToTokenLimits "not-a-known-model" = none ∧
    isConversationWithinLimit (fun _ => 9000) [] "not-a-known-model" = false := by
  decide

/-- C7 (amended): for every conversation and every model identifier with no
entry in the limit table, `isConversationWithinLimit` returns `false` — so
an unknown model is never treated as having an unlimited budget — but it
does not raise an `UnknownModelError`: no such error exists in the code;
unknown identifiers are instead excluded at compile time by the
`GroqChatModel` parameter type. -/
theorem spec_C7 (encodeChatLen : List ChatMessage → Nat)
    (convo : List ChatMessage) (model : String)
    (h : ModelsToTokenLimits model = none) :
    isConversationWithinLimit encodeChatLen convo model = false := by
  simp [isConversationWithinLimit, h]

/-- C7 witness: the amended theorem applied to an unknown model id. -/
theorem spec_C7_witness :
    isConversationWithinLimit (fun _ => 0) [] "not-a-known-model" = false :=
  spec_C7 (fun _ => 0) [] "not-a-known-model" (by decide)

/-- C3: for every PatchFile whose old_contents is null, `buildPatchPrompt`
returns exactly the raw-patch rendering — the filename under a `##` heading,
a blank line, and the renumbered patch — and the result does not depend on
the smarter-context strategy at all, so no parser is ever invoked. -/
theorem spec_C3 (smarter : PRFile → Option String) (file : PRFile)
    (h : file.old_contents = none) :
    buildPatchPrompt smarter file = rawPatchStrategy file ∧
    buildPatchPrompt smarter file =
      (assignLineNumbers file.patch).map
        (fun annotatedPatch => "## " ++ file.filename ++ "\n\n" ++ annotatedPatch) := by
  constructor <;> simp [buildPatchPrompt, rawPatchStrategy, h]

/-- C3 witness: the scenario file `a.py` with the scenario diff and no prior
contents, against a smarter strategy that would be observably different. -/
theorem spec_C3_witness :
    buildPatchPrompt (fun _ => some "SMART")
        ⟨"a.py", "@@ -1,2 +1,2 @@\n-foo\n+bar\n baz", none⟩ =
      rawPatchStrategy ⟨"a.py", "@@ -1,2 +1,2 @@\n-foo\n+bar\n baz", none⟩ ∧
    buildPatchPrompt (fun _ => some "SMART")
        ⟨"a.py", "@@ -1,2 +1,2 @@\n-foo\n+bar\n baz", none⟩ =
      (assignLineNumbers "@@ -1,2 +1,2 @@\n-foo\n+bar\n baz").map
        (fun annotatedPatch => "## " ++ "a.py" ++ "\n\n" ++ annotatedPatch) :=
  spec_C3 (fun _ => some "SMART")
    ⟨"a.py", "@@ -1,2 +1,2 @@\n-foo\n+bar\n baz", none⟩ rfl

mutual

theorem traverseNode_eq_foldl (a b : Int) (node : PyNode)
    (st : Int × Option PyNode) :
    traverseNode a b node st = (allNodes node).foldl (processStep a b) st := by
  match node with
  | .mk loc body =>
    rw [traverseNode, allNodes, List.foldl_cons]
    exact traverseBody_eq_foldl a b body _

theorem traverseBody_eq_foldl (a b : Int) (nodes : List PyNode)
    (st : Int × Option PyNode) :
    traverseBody a b nodes st =
      (allNodesList nodes).foldl (processStep a b) st := by
  match nodes with
  | [] => rw [traverseBody, allNodesList, List.foldl_nil]
  | child :: rest =>
    rw [traverseBody, allNodesList, List.foldl_append,
      ← traverseNode_eq_foldl a b child st]
    exact traverseBody_eq_foldl a b rest _

end

theorem TravInv_le (a b : Int) (visited : List PyNode) (s : Int)
    (ctx : Option PyNode) (h : TravInv a b visited (s, ctx)) :
    0 ≤ s ∧ ∀ x ∈ visited, nodeContains x a b → nodeSize x ≤ s := by
  cases ctx with
  | none =>
    obtain ⟨hs, hall⟩ := h
    exact ⟨le_of_eq hs.symm, fun x hx hcx => hs ▸ hall x hx hcx⟩
  | some m =>
    obtain ⟨hs, hpos, _, pre, post, hsplit, hpre, hpost⟩ := h
    refine ⟨hs ▸ le_of_lt hpos, fun x hx hcx => ?_⟩
    rw [hsplit] at hx
    rcases List.mem_append.mp hx with hx | hx
    · exact hs ▸ le_of_lt (hpre x hx hcx)
    · rcases List.mem_cons.mp hx with rfl | hx
      · exact le_of_eq hs.symm
      · exact hs ▸ hpost x hx hcx

theorem TravInv_processStep (a b : Int) (visited : List PyNode)
    (st : Int × Option PyNode) (n : PyNode) (h : TravInv a b visited st) :
    TravInv a b (visited ++ [n]) (processStep a b st n) := by
  obtain ⟨s, ctx⟩ := st
  obtain ⟨hs0, hle⟩ := TravInv_le a b visited s ctx h
  by_cases hc : n.loc.startLine ≤ a ∧ b ≤ n.loc.endLine
  · by_cases hgt : n.loc.endLine - n.loc.startLine > s
    · -- the node becomes the new largest enclosing context
      have hres : processStep a b (s, ctx) n = (nodeSize n, some n) := by
        simp [processStep, processNode, nodeSize, hc, hgt]
      rw [hres]
      have hsz : s < nodeSize n := hgt
      refine ⟨rfl, lt_of_le_of_lt hs0 hsz, hc, visited, [], rfl,
        fun x hx hcx => lt_of_le_of_lt (hle x hx hcx) hsz, by simp⟩
    · -- candidate, but not strictly larger: state unchanged
      have hres : processStep a b (s, ctx) n = (s, ctx) := by
        simp [processStep, processNode, nodeSize, hc, hgt]
      rw [hres]
      have hszn : nodeSize n ≤ s := not_lt.mp hgt
      cases ctx with
      | none =>
        obtain ⟨hs, hall⟩ := h
        refine ⟨hs, fun x hx hcx => ?_⟩
        rcases List.mem_append.mp hx with hx | hx
        · exact hall x hx hcx
        · rcases List.mem_singleton.mp hx with rfl
          exact hs ▸ hszn
      | some m =>
        obtain ⟨hs, hpos, hcm, pre, post, hsplit, hpre, hpost⟩ := h
        refine ⟨hs, hpos, hcm, pre, post ++ [n], by simp [hsplit], hpre,
          fun x hx hcx => ?_⟩
        rcases List.mem_append.mp hx with hx | hx
        · exact hpost x hx hcx
        · rcases List.mem_singleton.mp hx with rfl
          exact hs ▸ hszn
  · -- not a candidate: state unchanged
    have hres : processStep a b (s, ctx) n = (s, ctx) := by
      simp [processStep, processNode, nodeSize, hc]
    rw [hres]
    cases ctx with
    | none =>
      obtain ⟨hs, hall⟩ := h
      refine ⟨hs, fun x hx hcx => ?_⟩
      rcases List.mem_append.mp hx with hx | hx
      · exact hall x hx hcx
      · rcases List.mem_singleton.mp hx with rfl
        exact absurd hcx hc
    | some m =>
      obtain ⟨hs, hpos, hcm, pre, post, hsplit, hpre, hpost⟩ := h
      refine ⟨hs, hpos, hcm, pre, post ++ [n], by simp [hsplit], hpre,
        fun x hx hcx => ?_⟩
      rcases List.mem_append.mp hx with hx | hx
      · exact hpost x hx hcx
      · rcases List.mem_singleton.mp hx with rfl
        exact absurd hcx hc

theorem TravInv_foldl (a b : Int) (l : List PyNode) :
    ∀ visited st, TravInv a b visited st →
      TravInv a b (visited ++ l) (l.foldl (processStep a b) st) := by
  induction l with
  | nil => intro visited st h; simpa using h
  | cons n rest ih =>
    intro visited st h
    have h1 := TravInv_processStep a b visited st n h
    have h2 := ih (visited ++ [n]) _ h1
    simpa [List.append_assoc] using h2

theorem findEnclosingContext_inv (parsed : PyNode) (a b : Int) :
    TravInv a b (allNodes parsed) (traverseNode a b parsed (0, none)) := by
  have h0 : TravInv a b [] (0, none) := ⟨rfl, by simp⟩
  have hf := TravInv_foldl a b (allNodes parsed) [] (0, none) h0
  rw [traverseNode_eq_foldl]
  simpa using hf

theorem findEnclosingContext_snd (parsed : PyNode) (a b : Int) :
    (findEnclosingContext parsed a b).enclosingContext =
      (traverseNode a b parsed (0, none)).2 := rfl

/-- C4 (amended): `findEnclosingContext` selects no node when no node of the
tree contains the requested range, and any selected node is a tree node
whose range contains the requested range; but the claim's converse holds
only for ranges contained in some node of strictly positive size — when
every containing node is single-line, no node is selected (see the
counterexample). -/
theorem spec_C4 (parsed : PyNode) (a b : Int) :
    ((∀ n ∈ allNodes parsed, ¬ nodeContains n a b) →
      (findEnclosingContext parsed a b).enclosingContext = none) ∧
    (∀ m, (findEnclosingContext parsed a b).enclosingContext = some m →
      m ∈ allNodes parsed ∧ nodeContains m a b) ∧
    ((∃ n ∈ allNodes parsed, nodeContains n a b ∧ 0 < nodeSize n) →
      ∃ m, (findEnclosingContext parsed a b).enclosingContext = some m) := by
  have hinv := findEnclosingContext_inv parsed a b
  rcases hst : traverseNode a b parsed (0, none) with ⟨s, ctx⟩
  rw [hst] at hinv
  rw [findEnclosingContext_snd parsed a b, hst]
  cases ctx with
  | none =>
    obtain ⟨hs, hall⟩ := hinv
    refine ⟨fun _ => rfl, fun m hm => by simp at hm, ?_⟩
    rintro ⟨n, hn, hcn, hpos⟩
    exact absurd hpos (not_lt.mpr (hall n hn hcn))
  | some m =>
    obtain ⟨hs, hpos, hcm, pre, post, hsplit, hpre, hpost⟩ := hinv
    refine ⟨fun hnone => absurd hcm (hnone m ?_), fun m' hm' => ?_,
      fun _ => ⟨m, rfl⟩⟩
    · rw [hsplit]; simp
    · have hmm : m = m' := by simpa using hm'
      subst hmm
      exact ⟨by rw [hsplit]; simp, hcm⟩

/-- C4 counterexample: the single-node tree with range [1,1] contains the
requested range [1,1], yet `findEnclosingContext` selects no node, refuting
the claim that a node is returned whenever some node contains the range. -/
theorem spec_C4_counterexample :
    PyNode.mk ⟨1, 1⟩ [] ∈ allNodes (PyNode.mk ⟨1, 1⟩ []) ∧
    nodeContains (PyNode.mk ⟨1, 1⟩ []) 1 1 ∧
    (findEnclosingContext (PyNode.mk ⟨1, 1⟩ []) 1 1).enclosingContext = none := by
  refine ⟨by simp [allNodes, allNodesList], by decide, ?_⟩
  rw [findEnclosingContext_snd, traverseNode_eq_foldl]
  simp [allNodes, allNodesList, processStep, processNode, PyNode.loc]

/-- C4 witness: the amended theorem applied to a tree away from the range
(no candidate, so no node is selected) and to a containing tree of positive
size (a node is selected). -/
theorem spec_C4_witness :
    (findEnclosingContext (PyNode.mk ⟨5, 9⟩ []) 1 2).enclosingContext = none ∧
    ∃ m, (findEnclosingContext (PyNode.mk ⟨1, 4⟩ []) 1 2).enclosingContext = some m :=
  ⟨(spec_C4 (PyNode.mk ⟨5, 9⟩ []) 1 2).1
      (by simp [allNodes, allNodesList, nodeContains, PyNode.loc]),
   (spec_C4 (PyNode.mk ⟨1, 4⟩ []) 1 2).2.2
      ⟨PyNode.mk ⟨1, 4⟩ [], by simp [allNodes, allNodesList], by decide, by decide⟩⟩

/-- C10: when every node of the tree that contains the requested range has
size zero, `findEnclosingContext` selects no node: only a node of size
strictly greater than the initial maximum 0 is ever selected. -/
theorem spec_C10 (parsed : PyNode) (a b : Int)
    (h : ∀ n ∈ allNodes parsed, nodeContains n a b → nodeSize n = 0) :
    (findEnclosingContext parsed a b).enclosingContext = none := by
  have hinv := findEnclosingContext_inv parsed a b
  rcases hst : traverseNode a b parsed (0, none) with ⟨s, ctx⟩
  rw [hst] at hinv
  rw [findEnclosingContext_snd parsed a b, hst]
  cases ctx with
  | none => rfl
  | some m =>
    obtain ⟨hs, hpos, hcm, pre, post, hsplit, hpre, hpost⟩ := hinv
    have hm : m ∈ allNodes parsed := by rw [hsplit]; simp
    exact absurd (h m hm hcm) (ne_of_gt hpos)

/-- C10 witness: the theorem applied to the single-line tree. -/
theorem spec_C10_witness :
    (findEnclosingContext (PyNode.mk ⟨3, 3⟩ []) 3 3).enclosingContext = none :=
  spec_C10 (PyNode.mk ⟨3, 3⟩ []) 3 3
    (by simp [allNodes, allNodesList, nodeSize, PyNode.loc])

theorem traverseTie_result :
    (findEnclosingContext
        (PyNode.mk ⟨1, 2⟩ [PyNode.mk ⟨1, 2⟩ []]) 1 2).enclosingContext =
      some (PyNode.mk ⟨1, 2⟩ [PyNode.mk ⟨1, 2⟩ []]) := by
  rw [findEnclosingContext_snd, traverseNode_eq_foldl]
  simp [allNodes, allNodesList, processStep, processNode, PyNode.loc]

/-- C5 counterexample: in the tree whose root and single child both span
lines 1–2, both are candidates of equal size for the range [1,2] and the
child is visited last, yet `findEnclosingContext` returns the root — the
first visited candidate wins the tie, not the last. -/
theorem spec_C5_counterexample :
    allNodes (PyNode.mk ⟨1, 2⟩ [PyNode.mk ⟨1, 2⟩ []]) =
      [PyNode.mk ⟨1, 2⟩ [PyNode.mk ⟨1, 2⟩ []], PyNode.mk ⟨1, 2⟩ []] ∧
    nodeContains (PyNode.mk ⟨1, 2⟩ [PyNode.mk ⟨1, 2⟩ []]) 1 2 ∧
    nodeContains (PyNode.mk ⟨1, 2⟩ []) 1 2 ∧
    nodeSize (PyNode.mk ⟨1, 2⟩ []) =
      nodeSize (PyNode.mk ⟨1, 2⟩ [PyNode.mk ⟨1, 2⟩ []]) ∧
    (findEnclosingContext
        (PyNode.mk ⟨1, 2⟩ [PyNode.mk ⟨1, 2⟩ []]) 1 2).enclosingContext =
      some (PyNode.mk ⟨1, 2⟩ [PyNode.mk ⟨1, 2⟩ []]) ∧
    PyNode.mk ⟨1, 2⟩ [PyNode.mk ⟨1, 2⟩ []] ≠ PyNode.mk ⟨1, 2⟩ [] := by
  refine ⟨by simp [allNodes, allNodesList], by decide, by decide, by decide,
    traverseTie_result, by simp⟩

/-- C5 (amended): any node selected by `findEnclosingContext` is a candidate
of strictly positive size maximizing end.line − start.line among all
candidates, and every candidate visited before it in the depth-first
traversal is strictly smaller — so when two candidates have equal size the
one visited first wins, not the one visited last. -/
theorem spec_C5 (parsed : PyNode) (a b : Int) (m : PyNode)
    (h : (findEnclosingContext parsed a b).enclosingContext = some m) :
    m ∈ allNodes parsed ∧ nodeContains m a b ∧ 0 < nodeSize m ∧
    (∀ n ∈ allNodes parsed, nodeContains n a b → nodeSize n ≤ nodeSize m) ∧
    ∃ pre post, allNodes parsed = pre ++ m :: post ∧
      ∀ n ∈ pre, nodeContains n a b → nodeSize n < nodeSize m := by
  have hinv := findEnclosingContext_inv parsed a b
  rcases hst : traverseNode a b parsed (0, none) with ⟨s, ctx⟩
  rw [hst] at hinv
  rw [findEnclosingContext_snd parsed a b, hst] at h
  have hmax := TravInv_le a b (allNodes parsed) s ctx hinv
  cases ctx with
  | none => simp at h
  | some m' =>
    have hmm : m' = m := by simpa using h
    subst hmm
    obtain ⟨hs, hpos, hcm, pre, post, hsplit, hpre, hpost⟩ := hinv
    refine ⟨by rw [hsplit]; simp, hcm, hpos,
      fun n hn hcn => hs ▸ hmax.2 n hn hcn, pre, post, hsplit, hpre⟩

/-- C5 witness: the amended theorem applied to the two-node tie tree, where
the selected node is the root. -/
theorem spec_C5_witness :
    PyNode.mk ⟨1, 2⟩ [PyNode.mk ⟨1, 2⟩ []] ∈
      allNodes (PyNode.mk ⟨1, 2⟩ [PyNode.mk ⟨1, 2⟩ []]) ∧
    nodeContains (PyNode.mk ⟨1, 2⟩ [PyNode.mk ⟨1, 2⟩ []]) 1 2 ∧
    0 < nodeSize (PyNode.mk ⟨1, 2⟩ [PyNode.mk ⟨1, 2⟩ []]) ∧
    (∀ n ∈ allNodes (PyNode.mk ⟨1, 2⟩ [PyNode.mk ⟨1, 2⟩ []]),
      nodeContains n 1 2 →
        nodeSize n ≤ nodeSize (PyNode.mk ⟨1, 2⟩ [PyNode.mk ⟨1, 2⟩ []])) ∧
    ∃ pre post,
      allNodes (PyNode.mk ⟨1, 2⟩ [PyNode.mk ⟨1, 2⟩ []]) =
        pre ++ PyNode.mk ⟨1, 2⟩ [PyNode.mk ⟨1, 2⟩ []] :: post ∧
      ∀ n ∈ pre, nodeContains n 1 2 →
        nodeSize n < nodeSize (PyNode.mk ⟨1, 2⟩ [PyNode.mk ⟨1, 2⟩ []]) :=
  spec_C5 (PyNode.mk ⟨1, 2⟩ [PyNode.mk ⟨1, 2⟩ []]) 1 2
    (PyNode.mk ⟨1, 2⟩ [PyNode.mk ⟨1, 2⟩ []]) traverseTie_result

theorem getSubstitution_cons_ne (m b a : List Char) (c : Char)
    (rest : List Char) (hc : c ≠ '$') :
    getSubstitution m b a (c :: rest) = c :: getSubstitution m b a rest := by
  rw [getSubstitution.eq_def]
  show (if c = '$' then
      match rest with
      | [] => ['$']
      | d :: rest2 =>
        if d = '$' then '$' :: getSubstitution m b a rest2
        else if d = '&' then m ++ getSubstitution m b a rest2
        else if d = Char.ofNat 96 then b ++ getSubstitution m b a rest2
        else if d = Char.ofNat 39 then a ++ getSubstitution m b a rest2
        else '$' :: getSubstitution m b a (d :: rest2)
    else c :: getSubstitution m b a rest) = c :: getSubstitution m b a rest
  rw [if_neg hc]

theorem getSubstitution_dollar_other (m b a : List Char) (d : Char)
    (rest2 : List Char) (h1 : d ≠ '$') (h2 : d ≠ '&')
    (h3 : d ≠ Char.ofNat 96) (h4 : d ≠ Char.ofNat 39) :
    getSubstitution m b a ('$' :: d :: rest2) =
      '$' :: getSubstitution m b a (d :: rest2) := by
  rw [getSubstitution.eq_def]
  show (if d = '$' then '$' :: getSubstitution m b a rest2
      else if d = '&' then m ++ getSubstitution m b a rest2
      else if d = Char.ofNat 96 then b ++ getSubstitution m b a rest2
      else if d = Char.ofNat 39 then a ++ getSubstitution m b a rest2
      else '$' :: getSubstitution m b a (d :: rest2)) =
    '$' :: getSubstitution m b a (d :: rest2)
  rw [if_neg h1, if_neg h2, if_neg h3, if_neg h4]

theorem hasDollarPattern_cons_ne (c : Char) (rest : List Char) (hc : c ≠ '$') :
    hasDollarPattern (c :: rest) = hasDollarPattern rest := by
  rw [hasDollarPattern.eq_def]
  show (if c = '$' then
      match rest with
      | [] => false
      | d :: rest2 =>
        if d = '$' ∨ d = '&' ∨ d = Char.ofNat 96 ∨ d = Char.ofNat 39 then true
        else hasDollarPattern (d :: rest2)
    else hasDollarPattern rest) = hasDollarPattern rest
  rw [if_neg hc]

theorem hasDollarPattern_dollar_cons (d : Char) (rest2 : List Char) :
    hasDollarPattern ('$' :: d :: rest2) =
      if d = '$' ∨ d = '&' ∨ d = Char.ofNat 96 ∨ d = Char.ofNat 39 then true
      else hasDollarPattern (d :: rest2) := by
  rw [hasDollarPattern.eq_def]
  rfl

theorem getSubstitution_id (matched before after : List Char) :
    ∀ repl, hasDollarPattern repl = false →
      getSubstitution matched before after repl = repl
  | [], _ => rfl
  | [c], _ => by
    by_cases hc : c = '$'
    · subst hc; rfl
    · rw [getSubstitution_cons_ne matched before after c [] hc]; rfl
  | c :: d :: rest2, h => by
    by_cases hc : c = '$'
    · subst hc
      rw [hasDollarPattern_dollar_cons] at h
      by_cases hd : d = '$' ∨ d = '&' ∨ d = Char.ofNat 96 ∨ d = Char.ofNat 39
      · rw [if_pos hd] at h; exact absurd h (by simp)
      · rw [if_neg hd] at h
        push_neg at hd
        rw [getSubstitution_dollar_other matched before after d rest2
          hd.1 hd.2.1 hd.2.2.1 hd.2.2.2]
        rw [getSubstitution_id matched before after (d :: rest2) h]
    · rw [hasDollarPattern_cons_ne c (d :: rest2) hc] at h
      rw [getSubstitution_cons_ne matched before after c (d :: rest2) hc]
      rw [getSubstitution_id matched before after (d :: rest2) h]

theorem replaceFirstAux_embeds (pat repl : List Char)
    (hrep : hasDollarPattern repl = false) :
    ∀ (s before : List Char), pat <:+: s →
      repl <:+: replaceFirstListAux pat repl before s := by
  intro s
  induction s with
  | nil =>
    intro before h
    have hp : pat = [] := by simpa using h
    subst hp
    rw [replaceFirstListAux, if_pos (by decide),
      getSubstitution_id [] before.reverse [] repl hrep]
    exact ⟨before.reverse, [], by simp⟩
  | cons c cs ih =>
    intro before h
    by_cases hp : pat.isPrefixOf (c :: cs)
    · rw [replaceFirstListAux, if_pos hp,
        getSubstitution_id pat before.reverse (List.drop pat.length (c :: cs))
          repl hrep]
      exact ⟨before.reverse, List.drop pat.length (c :: cs), rfl⟩
    · rw [replaceFirstListAux, if_neg hp]
      have h' : pat <:+: cs := by
        rcases List.infix_cons_iff.mp h with h1 | h1
        · exact absurd (List.isPrefixOf_iff_prefix.mpr h1) hp
        · exact h1
      exact ih (c :: before) h'

theorem replaceFirst_embeds (pat repl : List Char)
    (hrep : hasDollarPattern repl = false) (s : List Char) (h : pat <:+: s) :
    repl <:+: replaceFirstList pat repl s :=
  replaceFirstAux_embeds pat repl hrep s [] h

theorem numberLinesFrom_length (ls : List String) :
    ∀ k, (numberLinesFrom k ls).length = ls.length := by
  induction ls with
  | nil => intro k; rfl
  | cons l ls ih => intro k; simp [numberLinesFrom, ih]

theorem numberLinesFrom_get? (ls : List String) :
    ∀ k i, (numberLinesFrom k ls).get? i =
      (ls.get? i).map (fun l => Nat.repr (k + i) ++ ": " ++ l) := by
  induction ls with
  | nil => intro k i; simp [numberLinesFrom]
  | cons l ls ih =>
    intro k i
    cases i with
    | zero => simp [numberLinesFrom]
    | succ j =>
      have harith : k + 1 + j = k + (j + 1) := by omega
      simp only [numberLinesFrom, List.get?, ih (k + 1) j, harith]

theorem template_first_replace (sugg : String) :
    (jsReplace INLINE_USER_MESSAGE_TEMPLATE "\x7bSUGGESTION\x7d" sugg).data =
      getSubstitution ("\x7bSUGGESTION\x7d" : String).data []
          ("\n\n\x7bFILE\x7d" : String).data sugg.data ++
        ("\n\n\x7bFILE\x7d" : String).data := rfl

theorem filePattern_embeds (x : List Char) :
    ("\x7bFILE\x7d" : String).data <:+:
      x ++ ("\n\n\x7bFILE\x7d" : String).data := by
  refine ⟨x ++ ("\n\n" : String).data, [], ?_⟩
  have h2 : ("\n\n\x7bFILE\x7d" : String).data =
      ("\n\n" : String).data ++ ("\x7bFILE\x7d" : String).data := rfl
  rw [h2]
  simp [List.append_assoc]

/-- C9 counterexample: for file contents `"$$"`, JavaScript applies
`$`-substitution to the replacement, so the user message holds `"s\n\n1: $"`
while the numbered file is `"1: $$"` — the full numbered file contents are
not embedded in the user message. -/
theorem spec_C9_counterexample :
    (getInlineFixPrompt "$$" "s").getLast? =
      some ⟨ChatRole.user, "s\n\n1: $"⟩ ∧
    assignFullLineNumbers "$$" = "1: $$" ∧
    ¬ ("1: $$".data <:+: "s\n\n1: $".data) := by decide

/-- C9 (amended): for every file contents string and every suggestion,
`getInlineFixPrompt` returns a conversation of exactly two messages — a
system message whose content is the fixed `INLINE_FIX_PROMPT` constant,
then a user message — and the numbering of `assignFullLineNumbers` is
absolute: the line count of the file is preserved and the line at 0-based
index `i` becomes its own text prefixed with the 1-based number `1 + i`;
the user message embeds the numbered file contents verbatim provided they
contain no two-character `$`-substitution pattern (JavaScript `replace`
rewrites `$$`, `$&`, `$` with a backtick and `$` with an apostrophe in the
replacement, so such file contents are inserted altered). -/
theorem spec_C9 (fileContents suggestion : String) :
    (getInlineFixPrompt fileContents suggestion).length = 2 ∧
    (getInlineFixPrompt fileContents suggestion).head? =
      some ⟨ChatRole.system, INLINE_FIX_PROMPT⟩ ∧
    (∃ u, (getInlineFixPrompt fileContents suggestion).getLast? =
        some ⟨ChatRole.user, u⟩ ∧
      (hasDollarPattern (assignFullLineNumbers fileContents).data = false →
        (assignFullLineNumbers fileContents).data <:+: u.data)) ∧
    assignFullLineNumbers fileContents =
      joinLines (numberLinesFrom 1 (splitLines fileContents)) ∧
    (numberLinesFrom 1 (splitLines fileContents)).length =
      (splitLines fileContents).length ∧
    ∀ i, (numberLinesFrom 1 (splitLines fileContents)).get? i =
      ((splitLines fileContents).get? i).map
        (fun l => Nat.repr (1 + i) ++ ": " ++ l) := by
  refine ⟨rfl, rfl,
    ⟨jsReplace
        (jsReplace INLINE_USER_MESSAGE_TEMPLATE "\x7bSUGGESTION\x7d" suggestion)
        "\x7bFILE\x7d" (assignFullLineNumbers fileContents), rfl, ?_⟩,
    rfl, numberLinesFrom_length _ 1, fun i => numberLinesFrom_get? _ 1 i⟩
  intro hds
  exact replaceFirst_embeds _ _ hds _
    (by rw [template_first_replace]; exact filePattern_embeds _)

/-- C9 witness: the amended theorem applied to file contents `"a\nb"` and
suggestion `"Fix"`, with the no-substitution-pattern hypothesis discharged
by evaluation. -/
theorem spec_C9_witness :
    ∃ u, (getInlineFixPrompt "a\nb" "Fix").getLast? =
        some ⟨ChatRole.user, u⟩ ∧
      (assignFullLineNumbers "a\nb").data <:+: u.data := by
  obtain ⟨-, -, ⟨u, hu, himp⟩, -, -, -⟩ := spec_C9 "a\nb" "Fix"
  exact ⟨u, hu, himp (by decide)⟩
